import Mathlib

/-!
Shallow embedding of `life.cpp` (Conway's Game of Life on a toroidal
terminal board) and verification of its specification claims.

The C++ data types `Vector = std::vector<bool>` and
`Matrix = std::vector<Vector>` are embedded as `List Bool` and
`List (List Bool)`.  Machine `int` arithmetic is embedded as `Int`
(all values involved stay far below 2^31, so no overflow reduction is
needed); the C++ `%` on `int` truncates toward zero, which is `Int.tmod`.
-/

namespace Life

/-- `Matrix = std::vector<std::vector<bool>>` from life.cpp line 17. -/
abbrev Matrix : Type := List (List Bool)

/-- Reading `board[y][x]`: `std::vector::operator[]` performs no bounds
check; out-of-range access is undefined behaviour in C++ and is embedded
as the default value `false`.  (Claim C9 shows all accesses made by
`countNbors` on square boards are in-bounds, so the default is never
consulted there.) -/
def getCellD (board : Matrix) (y x : Nat) : Bool :=
  (board.getD y []).getD x false

/-- `board[y][x]` as a fallible (`Option`-valued) access, used to state
the in-bounds safety claim. -/
def getCell? (board : Matrix) (y x : Nat) : Option Bool :=
  board[y]?.bind (fun row => row[x]?)

/-- The board is exactly square: every row has length `board.length`.
(Spec §3: the grid is always exactly N×N.) -/
def IsSquare (board : Matrix) : Prop :=
  ∀ row ∈ board, row.length = board.length

instance (board : Matrix) : Decidable (IsSquare board) :=
  List.decidableBAll _ board

/-- Index wrapping as performed inside `countNbors` (life.cpp lines
166-170): `a % dim` with C++ truncated `%` (`Int.tmod`), then, if the
result is negative, `dim` is added. -/
def wrapIdx (dim : Nat) (a : Int) : Int :=
  let r := Int.tmod a dim
  if r < 0 then r + dim else r

/-- The offsets `-1, 0, 1` ranged over by both loops of `countNbors`
(life.cpp lines 164-165).  Note the loops do NOT skip the pair
`(i, j) = (0, 0)`: the cell itself is inspected as well. -/
def deltas : List Int := [-1, 0, 1]

/-- `countNbors` (life.cpp lines 160-178): counts the set cells among
the nine wrapped positions `(x+j, y+i)` for `i, j ∈ {-1, 0, 1}` —
including `(0,0)`, i.e. the cell itself. -/
def countNbors (board : Matrix) (x y : Nat) : Nat :=
  deltas.foldl (fun count i =>
    deltas.foldl (fun count j =>
      let x_p := wrapIdx board.length ((x : Int) + j)
      let y_p := wrapIdx board.length ((y : Int) + i)
      if getCellD board y_p.toNat x_p.toNat then count + 1 else count)
      count)
    0

/-- The per-cell rule applied by `life` (life.cpp lines 138-146) to a
cell whose copied value is `cell` and whose `countNbors` result is
`count`. -/
def lifeRule (cell : Bool) (count : Nat) : Bool :=
  if cell then
    (if count < 2 ∨ count > 3 then false else cell)
  else
    (if count = 3 then true else cell)

/-- `life` (life.cpp lines 121-152): copies the board into `newBoard`,
then for every `y < board.size()` and `x < board.size()` rewrites
`newBoard[y][x]` from the rule; entries of a row at positions
`x ≥ board.size()` keep their copied value.  The C++ function mutates
its argument; the embedding returns the new board. -/
def life (board : Matrix) : Matrix :=
  board.mapIdx (fun y row =>
    row.mapIdx (fun x cell =>
      if x < board.length then lifeRule cell (countNbors board x y)
      else cell))

/-- `randBoard` (life.cpp lines 183-189): sets each cell at
`y, x < board.size()` to `rand() % 2` cast to `bool`.  The C library
`rand()` stream is embedded as a function from the call index (row-major:
the call for `(y, x)` is call number `y * board.size() + x`). -/
def randBoard (rand : Nat → Nat) (board : Matrix) : Matrix :=
  board.mapIdx (fun y row =>
    row.mapIdx (fun x cell =>
      if x < board.length then rand (y * board.length + x) % 2 != 0
      else cell))

/-- `stoi` model: `std::stoi` skips leading whitespace, consumes an
optional sign and then a maximal digit run; it throws
`std::invalid_argument` (here: `none`) when no digits are found.
(Arguments exercised by the spec stay far inside `int` range, so the
`out_of_range` case is not modelled.) -/
def stoi? (s : String) : Option Int :=
  match s.toList.dropWhile Char.isWhitespace with
  | '-' :: rest =>
      let ds := rest.takeWhile Char.isDigit
      if ds.isEmpty then none
      else some (-(ds.foldl (fun a c => a * 10 + (c.toNat - 48)) 0 : Nat))
  | '+' :: rest =>
      let ds := rest.takeWhile Char.isDigit
      if ds.isEmpty then none
      else some ((ds.foldl (fun a c => a * 10 + (c.toNat - 48)) 0 : Nat))
  | cs =>
      let ds := cs.takeWhile Char.isDigit
      if ds.isEmpty then none
      else some ((ds.foldl (fun a c => a * 10 + (c.toNat - 48)) 0 : Nat))

/-- Outcome of `checkArgs` (life.cpp lines 74-88), with the uncaught
`std::stoi` exception made explicit. -/
inductive ArgCheck
  | valid (dim : Int)
  | usageError
  | rangeError
  | stoiThrow
  deriving DecidableEq, Repr

/-- `checkArgs` (life.cpp lines 74-88): `argv` includes the program name,
so exactly one user argument means `args.length = 2`.  The range test is
`dim < 0 || dim > 40` — note `dim = 0` passes it. -/
def checkArgs (args : List String) : ArgCheck :=
  if args.length ≠ 2 then ArgCheck.usageError
  else
    match stoi? (args.getD 1 "") with
    | none => ArgCheck.stoiThrow
    | some dim =>
        if dim < 0 ∨ dim > 40 then ArgCheck.rangeError
        else ArgCheck.valid dim

/-- Process outcome of `main` (life.cpp lines 26-56): a valid argument
runs the simulation and returns `EXIT_SUCCESS` upon quit; the two
`checkArgs` error paths return `EXIT_FAILURE`; an uncaught `std::stoi`
exception terminates the process abnormally (no usage message, no
ordinary exit status). -/
inductive ExitBehavior
  | success
  | failure
  | abnormal
  deriving DecidableEq, Repr

def mainExit (args : List String) : ExitBehavior :=
  match checkArgs args with
  | ArgCheck.valid _ => ExitBehavior.success
  | ArgCheck.usageError => ExitBehavior.failure
  | ArgCheck.rangeError => ExitBehavior.failure
  | ArgCheck.stoiThrow => ExitBehavior.abnormal

/-- How each of the two `std::thread`s launched by the RUNNING loop body
receives the board (life.cpp lines 44-45): `print` takes
`const Matrix board` by value, so `thread t1(print, board)` hands the
thread its own decay-copied snapshot; `thread t2(life, ref(board))`
hands the thread a `std::reference_wrapper` aliasing `main`'s
authoritative `board`. -/
inductive TaskArg
  | byValue (snapshot : Matrix)
  | byRef
  deriving DecidableEq, Repr

/-- One iteration of the RUNNING loop body (life.cpp lines 41-48),
given the authoritative board at entry:
line 43 `life(board)` steps the board synchronously;
line 44 launches `print` on a by-value copy of the stepped board;
line 45 launches `life` on `ref(board)`, which (after both joins)
leaves the authoritative board stepped a second time. -/
structure LoopCycle where
  renderArg : TaskArg
  computeArg : TaskArg
  boardAfter : Matrix
  deriving Repr

def loopBody (board : Matrix) : LoopCycle :=
  let primed := life board
  { renderArg := TaskArg.byValue primed
    computeArg := TaskArg.byRef
    boardAfter := life primed }

end Life

namespace Life

/-! ### Helper lemmas about index wrapping -/

lemma tmod_gt_neg (a n : Int) (h : 0 < n) : -n < Int.tmod a n := by
  rcases le_or_lt 0 a with ha | ha
  · have h1 : 0 ≤ Int.tmod a n := Int.tmod_nonneg n ha
    omega
  · have hneg : Int.tmod a n = -(Int.tmod (-a) n) := by
      rw [Int.tmod_def, Int.tmod_def, Int.neg_tdiv]
      ring
    have h1 : 0 ≤ Int.tmod (-a) n := Int.tmod_nonneg n (by omega)
    have h2 : Int.tmod (-a) n < n := Int.tmod_lt_of_pos _ h
    omega

lemma wrapIdx_nonneg (dim : Nat) (a : Int) (h : 0 < dim) :
    0 ≤ wrapIdx dim a := by
  have hn : (0 : Int) < (dim : Int) := by exact_mod_cast h
  have h1 := Int.tmod_lt_of_pos a hn
  have h2 := tmod_gt_neg a dim hn
  simp only [wrapIdx]
  split <;> omega

lemma wrapIdx_lt (dim : Nat) (a : Int) (h : 0 < dim) :
    wrapIdx dim a < dim := by
  have hn : (0 : Int) < (dim : Int) := by exact_mod_cast h
  have h1 := Int.tmod_lt_of_pos a hn
  have h2 := tmod_gt_neg a dim hn
  simp only [wrapIdx]
  split <;> omega

/-- On a positive modulus, the truncated-modulus-then-normalize dance of
`countNbors` computes exactly the Euclidean remainder. -/
lemma wrapIdx_eq_emod (dim : Nat) (a : Int) (h : 0 < dim) :
    wrapIdx dim a = a % (dim : Int) := by
  have hn : (0 : Int) < (dim : Int) := by exact_mod_cast h
  have hw0 : 0 ≤ wrapIdx dim a := wrapIdx_nonneg dim a h
  have hw1 : wrapIdx dim a < dim := wrapIdx_lt dim a h
  have hdvd1 : (dim : Int) ∣ a - wrapIdx dim a := by
    simp only [wrapIdx]
    split
    · exact ⟨a.tdiv dim - 1, by rw [Int.tmod_def]; ring⟩
    · exact ⟨a.tdiv dim, by rw [Int.tmod_def]; ring⟩
  have he0 : 0 ≤ a % (dim : Int) := Int.emod_nonneg a (by omega)
  have he1 : a % (dim : Int) < dim := Int.emod_lt_of_pos a hn
  have hdvd2 : (dim : Int) ∣ a - a % (dim : Int) := ⟨a / dim, by rw [Int.emod_def]; ring⟩
  have hd : (dim : Int) ∣ wrapIdx dim a - a % (dim : Int) := by
    have h3 : wrapIdx dim a - a % (dim : Int)
        = (a - a % (dim : Int)) - (a - wrapIdx dim a) := by ring
    rw [h3]
    exact dvd_sub hdvd2 hdvd1
  have hz : wrapIdx dim a - a % (dim : Int) = 0 :=
    Int.eq_zero_of_abs_lt_dvd hd (abs_lt.mpr ⟨by omega, by omega⟩)
  omega

/-! ### Helper lemmas about board access and shape -/

lemma getElem_mapIdx' {α β : Type} (l : List α) (f : Nat → α → β) (i : Nat)
    (h : i < l.length) (h2 : i < (l.mapIdx f).length) :
    (l.mapIdx f)[i] = f i l[i] := by
  have h3 := List.get_mapIdx l f i h
  simp only [List.get_eq_getElem] at h3
  exact h3

lemma getCellD_of_lt (board : Matrix) {y x : Nat} (hy : y < board.length)
    (hx : x < board[y].length) :
    getCellD board y x = board[y][x] := by
  simp only [getCellD]
  rw [List.getD_eq_getElem _ _ hy, List.getD_eq_getElem _ _ hx]

lemma getCell?_isSome (board : Matrix) (hB : IsSquare board) {y x : Nat}
    (hy : y < board.length) (hx : x < board.length) :
    (getCell? board y x).isSome = true := by
  have hrow : board[y].length = board.length := hB _ (List.getElem_mem hy)
  simp only [getCell?]
  rw [List.getElem?_eq_getElem hy]
  rw [Option.some_bind]
  rw [List.getElem?_eq_getElem (by rw [hrow]; exact hx)]
  rfl

lemma length_life (board : Matrix) : (life board).length = board.length := by
  simp [life]

lemma row_life (board : Matrix) {y : Nat} (hy : y < board.length)
    (hy2 : y < (life board).length) :
    (life board)[y] = board[y].mapIdx (fun x cell =>
      if x < board.length then lifeRule cell (countNbors board x y)
      else cell) := by
  simp only [life]
  exact getElem_mapIdx' board _ y hy (by simpa [life] using hy2)

lemma isSquare_life (board : Matrix) (hB : IsSquare board) :
    IsSquare (life board) := by
  intro row hrow
  rw [List.mem_iff_getElem] at hrow
  obtain ⟨i, hi, rfl⟩ := hrow
  have hi2 : i < board.length := by simpa [length_life] using hi
  rw [row_life board hi2 hi, List.length_mapIdx, length_life]
  exact hB _ (List.getElem_mem hi2)

lemma length_randBoard (rand : Nat → Nat) (board : Matrix) :
    (randBoard rand board).length = board.length := by
  simp [randBoard]

lemma row_randBoard (rand : Nat → Nat) (board : Matrix) {y : Nat}
    (hy : y < board.length) (hy2 : y < (randBoard rand board).length) :
    (randBoard rand board)[y] = board[y].mapIdx (fun x cell =>
      if x < board.length then rand (y * board.length + x) % 2 != 0
      else cell) := by
  simp only [randBoard]
  exact getElem_mapIdx' board _ y hy (by simpa [randBoard] using hy2)

lemma isSquare_randBoard (rand : Nat → Nat) (board : Matrix)
    (hB : IsSquare board) : IsSquare (randBoard rand board) := by
  intro row hrow
  rw [List.mem_iff_getElem] at hrow
  obtain ⟨i, hi, rfl⟩ := hrow
  have hi2 : i < board.length := by simpa [length_randBoard] using hi
  rw [row_randBoard rand board hi2 hi, List.length_mapIdx, length_randBoard]
  exact hB _ (List.getElem_mem hi2)

/-- On a square board, the cell of `life board` at in-range `(y, x)` is
exactly the rule applied to the old cell and its `countNbors` count. -/
lemma getCellD_life (board : Matrix) (hB : IsSquare board) {y x : Nat}
    (hy : y < board.length) (hx : x < board.length) :
    getCellD (life board) y x = lifeRule (getCellD board y x) (countNbors board x y) := by
  have hrow : board[y].length = board.length := hB _ (List.getElem_mem hy)
  have hy2 : y < (life board).length := by rwa [length_life]
  have hx0 : x < board[y].length := by rw [hrow]; exact hx
  have hx2 : x < (life board)[y].length := by
    rw [row_life board hy hy2, List.length_mapIdx]
    exact hx0
  rw [getCellD_of_lt _ hy2 hx2, getCellD_of_lt _ hy hx0]
  have hstep : (life board)[y][x] = if x < board.length
      then lifeRule board[y][x] (countNbors board x y) else board[y][x] := by
    have hxm : x < (board[y].mapIdx (fun x cell =>
        if x < board.length then lifeRule cell (countNbors board x y)
        else cell)).length := by
      rw [List.length_mapIdx]
      exact hx0
    have h1 : ((life board)[y])[x]
        = (board[y].mapIdx (fun x cell =>
            if x < board.length then lifeRule cell (countNbors board x y)
            else cell)).get ⟨x, hxm⟩ := by
      rw [List.get_eq_getElem]
      congr 1
      exact row_life board hy hy2
    rw [h1, List.get_eq_getElem, getElem_mapIdx' _ _ _ hx0]
  rw [hstep]
  simp [hx]

/-! ### Toroidal translation (the operation quantified over by the
translation-commutation claim: every cell moves by `(sx, sy)` modulo `N`) -/

/-- The board whose cell `(y, x)` is the cell of `board` at
`((y + sy) % N, (x + sx) % N)`: the original pattern shifted by
`(-sx, -sy)` on the torus. -/
def translate (sx sy : Nat) (board : Matrix) : Matrix :=
  (List.range board.length).map (fun y =>
    (List.range board.length).map (fun x =>
      getCellD board ((y + sy) % board.length) ((x + sx) % board.length)))

lemma length_translate (sx sy : Nat) (board : Matrix) :
    (translate sx sy board).length = board.length := by
  simp [translate]

lemma isSquare_translate (sx sy : Nat) (board : Matrix) :
    IsSquare (translate sx sy board) := by
  intro row hrow
  simp only [translate, List.mem_map] at hrow
  obtain ⟨y, _, rfl⟩ := hrow
  simp [translate]

lemma getCellD_translate (sx sy : Nat) (board : Matrix) {y x : Nat}
    (hy : y < board.length) (hx : x < board.length) :
    getCellD (translate sx sy board) y x
      = getCellD board ((y + sy) % board.length) ((x + sx) % board.length) := by
  have hy2 : y < (translate sx sy board).length := by rwa [length_translate]
  have hx2 : x < (translate sx sy board)[y].length := by
    have := isSquare_translate sx sy board _ (List.getElem_mem hy2)
    rw [this, length_translate]
    exact hx
  rw [getCellD_of_lt _ hy2 hx2]
  simp only [translate]
  simp [List.getElem_map, List.getElem_range]

/-- Shifting the argument of a wrapped coordinate by `s` before or after
reducing modulo `N` gives the same wrapped coordinate. -/
lemma shift_wrap (N x s : Nat) (j : Int) (h0 : 0 < N) :
    ((wrapIdx N ((x : Int) + j)).toNat + s) % N
      = (wrapIdx N ((((x + s) % N : Nat) : Int) + j)).toNat := by
  have hn : (0 : Int) < (N : Int) := by exact_mod_cast h0
  rw [wrapIdx_eq_emod _ _ h0, wrapIdx_eq_emod _ _ h0]
  have ht : (0 : Int) ≤ ((x : Int) + j) % (N : Int) := Int.emod_nonneg _ (by omega)
  have ht2 : (0 : Int) ≤ ((((x + s) % N : Nat) : Int) + j) % (N : Int) :=
    Int.emod_nonneg _ (by omega)
  have hcast : ∀ a b : Nat, (a : Int) = b → a = b := fun a b h => by exact_mod_cast h
  apply hcast
  push_cast at ht2
  push_cast [Int.toNat_of_nonneg ht, Int.toNat_of_nonneg ht2]
  simp only [Int.emod_add_emod, Int.add_emod_emod]
  congr 1
  ring

/-- The nine wrapped reads of `countNbors` commute with translation. -/
lemma translate_leaf (board : Matrix) (h0 : 0 < board.length)
    (sx sy x y : Nat) (i j : Int) :
    getCellD (translate sx sy board)
        (wrapIdx board.length ((y : Int) + i)).toNat
        (wrapIdx board.length ((x : Int) + j)).toNat
      = getCellD board
        (wrapIdx board.length ((((y + sy) % board.length : Nat) : Int) + i)).toNat
        (wrapIdx board.length ((((x + sx) % board.length : Nat) : Int) + j)).toNat := by
  have hylt : (wrapIdx board.length ((y : Int) + i)).toNat < board.length := by
    have h1 := wrapIdx_lt board.length ((y : Int) + i) h0
    have h2 := wrapIdx_nonneg board.length ((y : Int) + i) h0
    omega
  have hxlt : (wrapIdx board.length ((x : Int) + j)).toNat < board.length := by
    have h1 := wrapIdx_lt board.length ((x : Int) + j) h0
    have h2 := wrapIdx_nonneg board.length ((x : Int) + j) h0
    omega
  rw [getCellD_translate sx sy board hylt hxlt]
  rw [shift_wrap _ _ _ _ h0, shift_wrap _ _ _ _ h0]

/-- `countNbors` commutes with translation. -/
lemma countNbors_translate (board : Matrix)
    (h0 : 0 < board.length) (sx sy x y : Nat) :
    countNbors (translate sx sy board) x y
      = countNbors board ((x + sx) % board.length) ((y + sy) % board.length) := by
  simp only [countNbors, length_translate, deltas, List.foldl_cons, List.foldl_nil]
  simp only [translate_leaf board h0 sx sy x y]

/-- Two square boards of equal size with equal cells are equal. -/
lemma square_ext {A C : Matrix} (hA : IsSquare A) (hC : IsSquare C)
    (hlen : A.length = C.length)
    (h : ∀ y x, y < A.length → x < A.length → getCellD A y x = getCellD C y x) :
    A = C := by
  apply List.ext_getElem hlen
  intro y hy1 hy2
  have hrA : A[y].length = A.length := hA _ (List.getElem_mem hy1)
  have hrC : C[y].length = C.length := hC _ (List.getElem_mem hy2)
  apply List.ext_getElem (by rw [hrA, hrC, hlen])
  intro x hx1 hx2
  have hx : x < A.length := by rwa [hrA] at hx1
  have h1 := h y x hy1 hx
  rw [getCellD_of_lt A hy1 hx1, getCellD_of_lt C hy2 hx2] at h1
  exact h1

/-! ### Concrete boards used as test inputs -/

/-- 3×3 board whose only live cell is the centre `(x, y) = (1, 1)`. -/
def single3 : Matrix :=
  [[false, false, false],
   [false, true,  false],
   [false, false, false]]

/-- 5×5 horizontal blinker: live cells at row 2, columns 1–3. -/
def blinkerH : Matrix :=
  [[false, false, false, false, false],
   [false, false, false, false, false],
   [false, true,  true,  true,  false],
   [false, false, false, false, false],
   [false, false, false, false, false]]

/-- 5×5 vertical blinker: live cells at column 2, rows 1–3 (what the
spec predicts after one step from `blinkerH`). -/
def blinkerV : Matrix :=
  [[false, false, false, false, false],
   [false, false, true,  false, false],
   [false, false, true,  false, false],
   [false, false, true,  false, false],
   [false, false, false, false, false]]

/-- 5×5 plus-sign: what `life` actually produces from `blinkerH`. -/
def plusBoard : Matrix :=
  [[false, false, false, false, false],
   [false, false, true,  false, false],
   [false, true,  true,  true,  false],
   [false, false, true,  false, false],
   [false, false, false, false, false]]

/-- 4×4 board with a 2×2 all-live block at rows 1–2, columns 1–2 (a
"block" still-life in Conway's rules). -/
def block4 : Matrix :=
  [[false, false, false, false],
   [false, true,  true,  false],
   [false, true,  true,  false],
   [false, false, false, false]]

/-- 4×4 all-dead board. -/
def dead4 : Matrix :=
  [[false, false, false, false],
   [false, false, false, false],
   [false, false, false, false],
   [false, false, false, false]]

/-- 2×2 board with three live cells, used as a concrete witness board. -/
def small2 : Matrix :=
  [[true, true],
   [true, false]]

/-! ### Claim theorems -/

/-- C1 (code bug evaluation): the neighbour count of the generation
step does NOT exclude the cell itself — the loops of `countNbors` range
over all nine offset pairs, `(0,0)` included.  On the 3×3 board whose
only live cell is the centre `(1,1)`, the claim's 8-position count is 0,
but `countNbors` returns 1: the cell was counted as its own neighbour. -/
theorem c1_countNbors_counts_self : countNbors single3 1 1 = 1 := by decide

/-- C2 (code bug evaluation): under the claimed rule a live cell with
exactly 3 live neighbours (among the 8 surrounding positions) survives,
so the 2×2 block is a still-life; because `countNbors` also counts the
cell itself, each block cell gets count 4 and `life` kills all four. -/
theorem c2_block_still_life_dies :
    life block4 = dead4 ∧ countNbors block4 1 1 = 4 := by decide

/-- C3 (code bug evaluation): `checkArgs` tests `dim < 0 || dim > 40`,
so dimension 0 is accepted (the program then runs an empty board and
exits successfully upon quit), although the program's own error message
demands `(0, 40]`; and a non-parseable argument makes the uncaught
`std::stoi` exception terminate the process abnormally instead of
producing the usage message and failure status.  Dimensions 41 and 40
and the missing argument do behave as claimed. -/
theorem c3_checkArgs_boundary :
    checkArgs ["./life", "0"] = ArgCheck.valid 0
  ∧ mainExit ["./life", "0"] = ExitBehavior.success
  ∧ checkArgs ["./life", "abc"] = ArgCheck.stoiThrow
  ∧ mainExit ["./life", "abc"] = ExitBehavior.abnormal
  ∧ mainExit ["./life", "41"] = ExitBehavior.failure
  ∧ mainExit ["./life"] = ExitBehavior.failure
  ∧ mainExit ["./life", "40"] = ExitBehavior.success := by decide

/-- C4: one iteration of the RUNNING loop body advances the
authoritative board by exactly two generation steps — one synchronous
(line 43) and one in the overlapped computation thread (line 45) — and
the snapshot handed to the renderer is the once-stepped board. -/
theorem c4_double_step_per_frame (board : Matrix) :
    (loopBody board).boardAfter = life (life board)
  ∧ (loopBody board).renderArg = TaskArg.byValue (life board) :=
  ⟨rfl, rfl⟩

/-- C5 (code bug evaluation): one `life` step from the horizontal
blinker produces the plus-sign pattern (the three original cells
survive and two are born), not the vertical blinker the claim
predicts. -/
theorem c5_blinker_becomes_plus :
    life blinkerH = plusBoard ∧ life blinkerH ≠ blinkerV := by
  refine ⟨by decide, by decide⟩

/-- C6: the generation step commutes with toroidal translation: on any
square board, stepping after translating equals translating after
stepping, so a pattern straddling the border evolves exactly like the
same pattern placed away from the border. -/
theorem c6_life_translate_comm (board : Matrix) (sx sy : Nat)
    (hB : IsSquare board) :
    life (translate sx sy board) = translate sx sy (life board) := by
  rcases Nat.eq_zero_or_pos board.length with h0 | h0
  · have hb : board = [] := List.length_eq_zero.mp h0
    subst hb
    simp [life, translate]
  · have hsq1 : IsSquare (translate sx sy board) := isSquare_translate sx sy board
    have hsqL : IsSquare (life board) := isSquare_life board hB
    apply square_ext (isSquare_life _ hsq1) (isSquare_translate sx sy (life board))
      (by rw [length_life, length_translate, length_translate, length_life])
    intro y x hy hx
    have hy1 : y < board.length := by
      rwa [length_life, length_translate] at hy
    have hx1 : x < board.length := by
      rwa [length_life, length_translate] at hx
    have hyt : y < (translate sx sy board).length := by rwa [length_translate]
    have hxt : x < (translate sx sy board).length := by rwa [length_translate]
    rw [getCellD_life _ hsq1 hyt hxt]
    rw [getCellD_translate sx sy board hy1 hx1]
    rw [countNbors_translate board h0 sx sy x y]
    have hyL : y < (life board).length := by rwa [length_life]
    have hxL : x < (life board).length := by rwa [length_life]
    rw [getCellD_translate sx sy (life board) hyL hxL]
    rw [length_life]
    rw [getCellD_life board hB (Nat.mod_lt _ h0) (Nat.mod_lt _ h0)]

theorem c6_witness :
    IsSquare blinkerH
  ∧ life (translate 1 2 blinkerH) = translate 1 2 (life blinkerH) :=
  ⟨by decide, c6_life_translate_comm blinkerH 1 2 (by decide)⟩

/-- C7: the Generation Engine is deterministic — it is a pure function
of the input board, so equal inputs give equal outputs regardless of
the order in which the per-cell evaluations are carried out. -/
theorem c7_life_deterministic (b1 b2 : Matrix) (h : b1 = b2) :
    life b1 = life b2 := by
  rw [h]

theorem c7_witness : blinkerH = blinkerH ∧ life blinkerH = life blinkerH :=
  ⟨rfl, c7_life_deterministic blinkerH blinkerH rfl⟩

/-- C8 (counterexample): the next-generation computation task is NOT
handed an independently-owned copy — line 45 passes `ref(board)`, an
alias of the Controller's authoritative board, so its argument is
`TaskArg.byRef` and for no matrix is it a by-value snapshot. -/
theorem c8_compute_arg_not_a_copy :
    (loopBody small2).computeArg = TaskArg.byRef
  ∧ ¬ ∃ m : Matrix, (loopBody small2).computeArg = TaskArg.byValue m := by
  constructor
  · rfl
  · rintro ⟨m, hm⟩
    simp [loopBody] at hm

/-- C8 (amended): the rendering task does receive an independently-owned
by-value copy of the once-stepped board, but the computation task
receives a reference aliasing the authoritative board itself. -/
theorem c8_render_copy_compute_alias (board : Matrix) :
    (loopBody board).renderArg = TaskArg.byValue (life board)
  ∧ (loopBody board).computeArg = TaskArg.byRef :=
  ⟨rfl, rfl⟩

/-- C9: on a square board of positive size, both wrapped coordinates
computed inside `countNbors` always land in `[0, N)`, and the
`Option`-valued grid access at those coordinates always succeeds. -/
theorem c9_neighbor_access_inbounds (board : Matrix) (x y : Nat) (i j : Int)
    (hB : IsSquare board) (h0 : 0 < board.length)
    (_hy : y < board.length) (_hx : x < board.length)
    (_hi : i ∈ deltas) (_hj : j ∈ deltas) :
    0 ≤ wrapIdx board.length ((x : Int) + j)
  ∧ (wrapIdx board.length ((x : Int) + j)).toNat < board.length
  ∧ 0 ≤ wrapIdx board.length ((y : Int) + i)
  ∧ (wrapIdx board.length ((y : Int) + i)).toNat < board.length
  ∧ (getCell? board (wrapIdx board.length ((y : Int) + i)).toNat
        (wrapIdx board.length ((x : Int) + j)).toNat).isSome = true := by
  have hx1 := wrapIdx_nonneg board.length ((x : Int) + j) h0
  have hx2 := wrapIdx_lt board.length ((x : Int) + j) h0
  have hy1 := wrapIdx_nonneg board.length ((y : Int) + i) h0
  have hy2 := wrapIdx_lt board.length ((y : Int) + i) h0
  refine ⟨hx1, by omega, hy1, by omega, ?_⟩
  exact getCell?_isSome board hB (by omega) (by omega)

theorem c9_witness :
    IsSquare small2 ∧ 0 < small2.length ∧ 1 < small2.length ∧ 0 < small2.length
  ∧ (-1 : Int) ∈ deltas ∧ (1 : Int) ∈ deltas
  ∧ (0 ≤ wrapIdx small2.length ((0 : Nat) + (1 : Int))
      ∧ (wrapIdx small2.length ((0 : Nat) + (1 : Int))).toNat < small2.length
      ∧ 0 ≤ wrapIdx small2.length ((1 : Nat) + (-1 : Int))
      ∧ (wrapIdx small2.length ((1 : Nat) + (-1 : Int))).toNat < small2.length
      ∧ (getCell? small2 (wrapIdx small2.length ((1 : Nat) + (-1 : Int))).toNat
            (wrapIdx small2.length ((0 : Nat) + (1 : Int))).toNat).isSome = true) :=
  ⟨by decide, by decide, by decide, by decide, by decide, by decide,
    c9_neighbor_access_inbounds small2 0 1 (-1) 1 (by decide) (by decide)
      (by decide) (by decide) (by decide) (by decide)⟩

/-- C10: on an exactly-square board, both the generation step and the
bulk randomize return a board of the same number of rows with every row
of that same length — the N×N shape is preserved. -/
theorem c10_shape_preserved (board : Matrix) (rand : Nat → Nat)
    (hB : IsSquare board) :
    (life board).length = board.length ∧ IsSquare (life board)
  ∧ (randBoard rand board).length = board.length
  ∧ IsSquare (randBoard rand board) :=
  ⟨length_life board, isSquare_life board hB,
   length_randBoard rand board, isSquare_randBoard rand board hB⟩

theorem c10_witness :
    IsSquare blinkerH
  ∧ ((life blinkerH).length = blinkerH.length ∧ IsSquare (life blinkerH)
      ∧ (randBoard Nat.succ blinkerH).length = blinkerH.length
      ∧ IsSquare (randBoard Nat.succ blinkerH)) :=
  ⟨by decide, c10_shape_preserved blinkerH Nat.succ (by decide)⟩

end Life
